import Mathlib

/-!
Verification of the port-binding resolution and readiness-polling subsystem
of the testcontainers library (`src/packages/testcontainers/src/utils/bound-ports.ts`
and `inspect-container-util-ports-exposed`).

JavaScript strings are embedded as `List Char` (named `Str`); JS `Map` objects
are embedded as insertion-ordered association lists with replace-or-append
insertion; falsy checks on numbers (`!binding`) are embedded explicitly, so a
stored value of `0` counts as absent exactly as in the source.
-/

abbrev Str := List Char

/-- JS `String.prototype.toLowerCase` restricted to ASCII, as used by the source. -/
def lowerStr (s : Str) : Str := s.map Char.toLower

/-- JS `String.prototype.split(sep)` for a one-character separator. -/
def splitChar (sep : Char) : Str → List Str
  | [] => [[]]
  | c :: cs =>
    if c = sep then [] :: splitChar sep cs
    else
      match splitChar sep cs with
      | h :: t => (c :: h) :: t
      | [] => [[c]]

/-- Inverse of `splitChar`: interleave the separator back between the pieces. -/
def joinChar (sep : Char) : List Str → Str
  | [] => []
  | [x] => x
  | x :: y :: xs => x ++ sep :: joinChar sep (y :: xs)

/-- Split into the first segment and, when a separator occurs, the second
segment, mirroring the JS destructuring `const [a, b] = s.split(sep)`. -/
def splitTwo (k : Str) : Str × Option Str :=
  match splitChar '/' k with
  | pn :: pp :: _ => (pn, some pp)
  | [pn] => (pn, none)
  | [] => ([], none)

/-- Decimal rendering of a natural number, as JS template literals do for
non-negative integers. Fuel-based; `natToStr` supplies enough fuel. -/
def natToStrAux : Nat → Nat → Str → Str
  | 0, _, acc => acc
  | fuel + 1, n, acc =>
    let d : Char := Char.ofNat (48 + n % 10)
    if n / 10 = 0 then d :: acc else natToStrAux fuel (n / 10) (d :: acc)

def natToStr (n : Nat) : Str := natToStrAux (n + 1) n []

/-- JS `parseInt(s, 10)`: value of the maximal leading digit run, `none` for NaN. -/
def parseIntJS (s : Str) : Option Nat :=
  let ds := s.takeWhile Char.isDigit
  if ds.isEmpty then none
  else some (ds.foldl (fun a c => a * 10 + (c.toNat - 48)) 0)

/-- JS truthiness test `!x` on an optional number: `undefined` and `0` are falsy. -/
def falsy : Option Nat → Bool
  | none => true
  | some v => v == 0

/-- JS `Map.prototype.get` on an insertion-ordered association list. -/
def mapGet : List (Str × Nat) → Str → Option Nat
  | [], _ => none
  | e :: rest, k => if e.1 == k then some e.2 else mapGet rest k

/-- JS `Map.prototype.set`: replace the value at an existing key in place,
otherwise append at the end. -/
def mapSet : List (Str × Nat) → Str → Nat → List (Str × Nat)
  | [], k, v => [(k, v)]
  | e :: rest, k, v => if e.1 == k then (k, v) :: rest else e :: mapSet rest k v

/-- JS `Map` built by successive `set` calls over a pair list: `get` returns
the value of the last pair inserted for the key (`none` models a missing key;
the `Option Nat` key component embeds `NaN` keys under SameValueZero). -/
def jsMapGet (m : List (Option Nat × Str)) (k : Option Nat) : Option Str :=
  (m.reverse.find? (fun e => e.1 == k)).map (fun e => e.2)

/-- The two runtime shapes accepted by `getBinding`/`setBinding`:
`number | string`. -/
inductive PortInput where
  | num (n : Nat)
  | str (s : Str)
  deriving DecidableEq

/-- Modelled from the spec: `PortWithOptionalBinding` (the `port.ts` helper
module is not part of the analysed sources) — a bare port number, a
`"port/protocol"` string, or a record with container port, optional requested
host port and optional protocol. -/
inductive PortWithOptionalBinding where
  | num (port : Nat)
  | str (s : Str)
  | record (container : Nat) (host : Option Nat) (protocol : Option Str)
  deriving DecidableEq

/-- Modelled from the spec: `getContainerPort` of the missing `port.ts` —
bare integer is the port; a string is parsed as its part before any `/`
(`none` embeds JS `NaN` when nothing parses); a record supplies `container`. -/
def getContainerPort : PortWithOptionalBinding → Option Nat
  | .num p => some p
  | .str s => parseIntJS (splitTwo s).1
  | .record c _ _ => some c

/-- Modelled from the spec: `getProtocol` of the missing `port.ts` — bare
integer defaults to `"tcp"`; a string with `/` yields its lower-cased
right-hand side; a record's optional protocol defaults to `"tcp"` and is
lower-cased. -/
def getProtocol : PortWithOptionalBinding → Str
  | .num _ => "tcp".data
  | .str s =>
    match (splitTwo s).2 with
    | some pr => lowerStr pr
    | none => "tcp".data
  | .record _ _ pr => lowerStr (pr.getD "tcp".data)

/-- JS number-to-string coercion for the possibly-NaN result of
`getContainerPort`, as used in template literals. -/
def jsNumToStr : Option Nat → Str
  | some n => natToStr n
  | none => "NaN".data

/-- The `BoundPorts` registry: a JS `Map<string, number>` from
`containerPort/protocol` keys to host ports. -/
structure BoundPorts where
  ports : List (Str × Nat)
  deriving DecidableEq

def BoundPorts.empty : BoundPorts := ⟨[]⟩

/-- `BoundPorts.getBinding(port, protocol = "tcp")`: exact lookup on the key
(string keys used as-is; numeric keys synthesised with the lower-cased
protocol), then — only for a string containing `/` and a falsy first result —
a retry with the protocol segment lower-cased; falsy final result throws. -/
def BoundPorts.getBinding (bp : BoundPorts) (port : PortInput) (protocol : Str) : Option Nat :=
  let normalizedProtocol := lowerStr protocol
  let key : Str :=
    match port with
    | PortInput.str s => s
    | PortInput.num n => natToStr n ++ '/' :: normalizedProtocol
  let binding := mapGet bp.ports key
  let binding2 :=
    if falsy binding then
      match port with
      | PortInput.str s =>
        match splitChar '/' s with
        | pn :: pp :: _ => mapGet bp.ports (pn ++ '/' :: lowerStr pp)
        | _ => binding
      | PortInput.num _ => binding
    else binding
  if falsy binding2 then none else binding2

/-- `BoundPorts.setBinding(key, value, protocol = "tcp")`: a string key
containing `/` (i.e. splitting into at least two parts) is re-normalised from
its first two segments with the protocol segment lower-cased; any other string
key is stored as-is; a numeric key is stored as `key/protocol` with the
protocol parameter lower-cased. -/
def BoundPorts.setBinding (bp : BoundPorts) (key : PortInput) (value : Nat) (protocol : Str) : BoundPorts :=
  let normalizedProtocol := lowerStr protocol
  match key with
  | PortInput.str s =>
    match splitChar '/' s with
    | pn :: pp :: _ => ⟨mapSet bp.ports (pn ++ '/' :: lowerStr pp) value⟩
    | _ => ⟨mapSet bp.ports s value⟩
  | PortInput.num n => ⟨mapSet bp.ports (natToStr n ++ '/' :: normalizedProtocol) value⟩

/-- The key `setBinding` actually stores a string key under (identity for
keys without `/`, first two segments with lower-cased protocol otherwise). -/
def renorm (k : Str) : Str :=
  match splitChar '/' k with
  | pn :: pp :: _ => pn ++ '/' :: lowerStr pp
  | _ => k

/-- A key is canonical when it is slash-free or has exactly one `/` with a
lower-case protocol segment: exactly the keys `setBinding` can produce from
single-slash or slash-free input. -/
def canonKey (k : Str) : Bool :=
  match splitChar '/' k with
  | [_] => true
  | _ :: pp :: rest => rest.isEmpty && pp == lowerStr pp
  | [] => false

/-- Modelled from the spec: the host address families of `HostIp` records
(the `container-runtime` module is not part of the analysed sources) are
IPv4 or IPv6 only. -/
inductive IpFamily where
  | v4
  | v6
  deriving DecidableEq

def IpFamily.toNat : IpFamily → Nat
  | .v4 => 4
  | .v6 => 6

/-- Modelled from the spec: a `HostIp` record carries the address family the
caller's host can reach. -/
structure HostIp where
  family : IpFamily
  deriving DecidableEq

/-- One raw host binding reported by the runtime for a container port. -/
structure HostPortBinding where
  hostIp : Str
  hostPort : Nat
  deriving DecidableEq

/-- Modelled from the spec: a simplified Node `net.isIP` classifier — a
dotted quad of up-to-3-digit groups each at most 255 is IPv4 (result 4); a
colon-containing string of hex digits and colons is IPv6 (result 6); anything
else, the empty string included, is no IP (result 0). -/
def isIPv4 (s : Str) : Bool :=
  let parts := splitChar '.' s
  parts.length == 4 && parts.all fun p =>
    !p.isEmpty && p.length ≤ 3 && p.all Char.isDigit &&
      p.foldl (fun a c => a * 10 + (c.toNat - 48)) 0 ≤ 255

def isIPv6 (s : Str) : Bool :=
  s.contains ':' && s.all fun c =>
    c.isDigit || ('a' ≤ c && c ≤ 'f') || ('A' ≤ c && c ≤ 'F') || c == ':'

def isIP (s : Str) : Nat :=
  if isIPv4 s then 4 else if isIPv6 s then 6 else 0

/-- `isDualStackIp`: a single binding whose host IP is the empty string. -/
def isDualStackIp (hostPortBindings : List HostPortBinding) : Bool :=
  match hostPortBindings with
  | [b] => b.hostIp == ([] : Str)
  | _ => false

/-- The family-preference loop of `resolveHostPortBinding`: for each host IP
in order, find the first binding whose host IP parses as that family. -/
def resolveLoop (hostPortBindings : List HostPortBinding) : List HostIp → Option Nat
  | [] => none
  | ip :: rest =>
    match hostPortBindings.find? (fun b => isIP b.hostIp == ip.family.toNat) with
    | some b => some b.hostPort
    | none => resolveLoop hostPortBindings rest

/-- `resolveHostPortBinding(hostIps, hostPortBindings)`: dual-stack wildcard
short-circuit, then the family-preference loop; `none` embeds the thrown
`"No host port found for host IP"` error. -/
def resolveHostPortBinding (hostIps : List HostIp) (hostPortBindings : List HostPortBinding) : Option Nat :=
  if isDualStackIp hostPortBindings then (hostPortBindings.head?).map (fun b => b.hostPort)
  else resolveLoop hostPortBindings hostIps

/-- The mapped inspection snapshot: per `containerPort/protocol` key, the raw
host binding list (`mapInspectResult` output; only the `ports` field is
relevant to the analysed code). -/
structure InspectResult where
  ports : List (Str × List HostPortBinding)
  deriving DecidableEq

/-- JS object property lookup on the snapshot's `ports` (unique keys). -/
def objGet : List (Str × List HostPortBinding) → Str → Option (List HostPortBinding)
  | [], _ => none
  | e :: rest, k => if e.1 == k then some e.2 else objGet rest k

/-- The fold underlying `BoundPorts.fromInspectResult`: resolve each group and
insert it; a resolution failure aborts the whole construction (the source
lets the thrown error escape). -/
def fromInspectAux (hostIps : List HostIp) : BoundPorts → List (Str × List HostPortBinding) → Option BoundPorts
  | bp, [] => some bp
  | bp, e :: rest =>
    match resolveHostPortBinding hostIps e.2 with
    | some hp => fromInspectAux hostIps (bp.setBinding (PortInput.str e.1) hp "tcp".data) rest
    | none => none

/-- `BoundPorts.fromInspectResult(hostIps, inspectResult)`. -/
def BoundPorts.fromInspectResult (hostIps : List HostIp) (inspectResult : InspectResult) : Option BoundPorts :=
  fromInspectAux hostIps BoundPorts.empty inspectResult.ports

/-- The per-tick predicate of `inspectContainerUntilPortsExposed`: every
wanted port, under its canonical `containerPort/protocol` key, has a
non-empty raw binding list in the snapshot (`ports[portKey]?.length > 0`). -/
def portsExposedPred (ports : List PortWithOptionalBinding) (snap : InspectResult) : Bool :=
  ports.all fun exposedPort =>
    let portKey := jsNumToStr (getContainerPort exposedPort) ++ '/' :: getProtocol exposedPort
    match objGet snap.ports portKey with
    | some l => decide (0 < l.length)
    | none => false

/-- The fixed message of the error raised by the source's onTimeout callback:
`new Error("Container did not expose all ports after starting")`. The
container identifier is not part of the raised error. -/
def portExposureTimeoutMessage : Str :=
  "Container did not expose all ports after starting".data

/-- The record the source's onTimeout callback passes to
`log.error(message, { containerId })` before returning the error: the log,
not the raised error, is where the container identifier appears. -/
def portExposureTimeoutLog (containerId : Str) : Str × Str :=
  (portExposureTimeoutMessage, containerId)

/-- Modelled from the spec: the `IntervalRetry(250).retryUntil` tick loop —
ticks run sequentially, the first immediately, then every 250 ms while the
elapsed time has not passed the timeout; `inspectFn` gives the fresh snapshot
of each tick; on timeout the loop fails with the error value produced by the
caller's onTimeout callback. -/
def pollTicks (inspectFn : Nat → InspectResult) (pred : InspectResult → Bool) (onTimeout : Str) : Nat → Nat → Except Str (Nat × InspectResult)
  | 0, _ => Except.error onTimeout
  | fuel + 1, tick =>
    let s := inspectFn tick
    if pred s then Except.ok (tick, s) else pollTicks inspectFn pred onTimeout fuel (tick + 1)

/-- Modelled from the spec: number of 250 ms ticks within `timeout`
milliseconds, the immediate first tick included; a timeout of zero gives
exactly one tick. -/
def numTicks (timeout : Nat) : Nat := timeout / 250 + 1

/-- `inspectContainerUntilPortsExposed(inspectFn, ports, containerId, timeout)`:
poll fresh snapshots until the per-tick predicate holds, else time out with
the onTimeout callback's error, which carries the fixed message alone; the
`containerId` argument reaches only the `log.error` call of that callback
(see `portExposureTimeoutLog`), never the raised error. -/
def inspectContainerUntilPortsExposed (inspectFn : Nat → InspectResult) (ports : List PortWithOptionalBinding) (containerId : Str) (timeout : Nat) : Except Str (Nat × InspectResult) :=
  pollTicks inspectFn (portsExposedPred ports) portExposureTimeoutMessage (numTicks timeout) 0

/-- The exact key of `getBinding`'s first lookup. -/
def primaryKey (port : PortInput) (protocol : Str) : Str :=
  match port with
  | PortInput.str s => s
  | PortInput.num n => natToStr n ++ '/' :: lowerStr protocol

/-- The key of `getBinding`'s second lookup: for a string containing `/` the
re-normalised key, otherwise the first key again (no distinct retry). -/
def retryKey (port : PortInput) (protocol : Str) : Str :=
  match port with
  | PortInput.str s => renorm s
  | PortInput.num n => primaryKey (PortInput.num n) protocol

/-- The matching relation of the filter claim, in the spec's words: a spec
matches a registry key when the container port is equal and the protocol is
equal case-insensitively. -/
def specMatchesKey (spec : PortWithOptionalBinding) (k : Str) : Bool :=
  (getContainerPort spec == parseIntJS (splitTwo k).1) &&
    match (splitTwo k).2 with
    | some pr => lowerStr (getProtocol spec) == lowerStr pr
    | none => false

/-- The condition under which `BoundPorts.filter` keeps a registry key: its
parsed port is in the spec map (last spec per port number wins) with a
case-insensitively equal protocol. -/
def keepKey (specs : List PortWithOptionalBinding) (k : Str) : Bool :=
  match jsMapGet (specs.map fun p => (getContainerPort p, getProtocol p)) (parseIntJS (splitTwo k).1),
        (splitTwo k).2 with
  | some sp, some pr => lowerStr sp == lowerStr pr
  | _, _ => false

/-- The loop body of `BoundPorts.filter` for one registry entry: parse the
entry's key, keep the entry (re-inserted through `setBinding`) when its port
is in the spec map with a case-insensitively equal protocol. -/
def filterStep (containerPortsWithProtocol : List (Option Nat × Str)) (acc : BoundPorts) (e : Str × Nat) : BoundPorts :=
  let internalPort := parseIntJS (splitTwo e.1).1
  match jsMapGet containerPortsWithProtocol internalPort, (splitTwo e.1).2 with
  | some sp, some pr =>
    if lowerStr sp == lowerStr pr then acc.setBinding (PortInput.str e.1) e.2 "tcp".data
    else acc
  | _, _ => acc

/-- `BoundPorts.filter(ports)`: build a container-port-keyed protocol map from
the specs (later specs overwrite earlier ones sharing a port number), then
re-insert every registry entry whose parsed port is in the map with a
case-insensitively equal protocol. -/
def BoundPorts.filter (bp : BoundPorts) (ports : List PortWithOptionalBinding) : BoundPorts :=
  let containerPortsWithProtocol : List (Option Nat × Str) :=
    ports.map fun p => (getContainerPort p, getProtocol p)
  bp.ports.foldl (filterStep containerPortsWithProtocol) BoundPorts.empty

theorem splitChar_ne_nil (sep : Char) (s : Str) : splitChar sep s ≠ [] := by
  induction s with
  | nil => simp [splitChar]
  | cons c cs ih =>
    simp only [splitChar]
    by_cases h : c = sep
    · simp [h]
    · simp only [if_neg h]
      cases hs : splitChar sep cs with
      | nil => simp
      | cons a t => simp

theorem splitChar_not_mem {sep : Char} {s : Str} (h : sep ∉ s) : splitChar sep s = [s] := by
  induction s with
  | nil => rfl
  | cons c cs ih =>
    simp only [List.mem_cons, not_or] at h
    rw [splitChar, if_neg (fun hc => h.1 hc.symm), ih h.2]

theorem splitChar_append {sep : Char} {a : Str} (b : Str) (ha : sep ∉ a) :
    splitChar sep (a ++ sep :: b) = a :: splitChar sep b := by
  induction a with
  | nil => simp [splitChar]
  | cons c cs ih =>
    simp only [List.mem_cons, not_or] at ha
    rw [List.cons_append, splitChar, if_neg (fun hc => ha.1 hc.symm), ih ha.2]

theorem splitChar_two {sep : Char} {a b : Str} (ha : sep ∉ a) (hb : sep ∉ b) :
    splitChar sep (a ++ sep :: b) = [a, b] := by
  rw [splitChar_append b ha, splitChar_not_mem hb]

theorem joinChar_splitChar (sep : Char) (s : Str) : joinChar sep (splitChar sep s) = s := by
  induction s with
  | nil => rfl
  | cons c cs ih =>
    simp only [splitChar]
    by_cases h : c = sep
    · subst h
      simp only [if_pos rfl]
      cases hs : splitChar c cs with
      | nil => exact absurd hs (splitChar_ne_nil c cs)
      | cons x t =>
        rw [hs] at ih
        simpa [joinChar] using ih
    · simp only [if_neg h]
      cases hs : splitChar sep cs with
      | nil => exact absurd hs (splitChar_ne_nil sep cs)
      | cons x t =>
        rw [hs] at ih
        cases t with
        | nil =>
          simp only [joinChar] at ih ⊢
          rw [ih]
        | cons y ys =>
          simp only [joinChar, List.cons_append] at ih ⊢
          rw [ih]

theorem eq_of_splitChar_two {sep : Char} {k a b : Str} (h : splitChar sep k = [a, b]) :
    k = a ++ sep :: b := by
  have := joinChar_splitChar sep k
  rw [h] at this
  simpa [joinChar] using this.symm

theorem digitChar_isDigit : ∀ d, d < 10 → (Char.ofNat (48 + d)).isDigit = true := by decide

theorem natToStrAux_digits : ∀ fuel n acc, (∀ c ∈ acc, c.isDigit = true) →
    ∀ c ∈ natToStrAux fuel n acc, c.isDigit = true := by
  intro fuel
  induction fuel with
  | zero => intro n acc hacc c hc; exact hacc c hc
  | succ fuel ih =>
    intro n acc hacc c hc
    simp only [natToStrAux] at hc
    split at hc
    · rcases List.mem_cons.mp hc with hc | hc
      · exact hc ▸ digitChar_isDigit (n % 10) (Nat.mod_lt n (by norm_num))
      · exact hacc c hc
    · refine ih (n / 10) _ ?_ c hc
      intro x hx
      rcases List.mem_cons.mp hx with hx | hx
      · exact hx ▸ digitChar_isDigit (n % 10) (Nat.mod_lt n (by norm_num))
      · exact hacc x hx

theorem slash_not_mem_natToStr (n : Nat) : '/' ∉ natToStr n := by
  intro hmem
  have := natToStrAux_digits (n + 1) n [] (by intro c hc; cases hc) '/' hmem
  exact absurd this (by decide)

theorem mapGet_mapSet_self (m : List (Str × Nat)) (k : Str) (v : Nat) :
    mapGet (mapSet m k v) k = some v := by
  induction m with
  | nil => simp [mapGet, mapSet]
  | cons e rest ih =>
    by_cases h : e.1 = k
    · simp [mapSet, mapGet, h]
    · simp [mapSet, mapGet, h, ih]

theorem mapSet_cons_eq {e : Str × Nat} {rest : List (Str × Nat)} {k : Str} (h : e.1 = k) (v : Nat) :
    mapSet (e :: rest) k v = (k, v) :: rest := by
  simp [mapSet, h]

theorem mapSet_cons_ne {e : Str × Nat} {rest : List (Str × Nat)} {k : Str} (h : e.1 ≠ k) (v : Nat) :
    mapSet (e :: rest) k v = e :: mapSet rest k v := by
  simp [mapSet, h]

theorem mapGet_cons_eq {e : Str × Nat} {rest : List (Str × Nat)} {k : Str} (h : e.1 = k) :
    mapGet (e :: rest) k = some e.2 := by
  simp [mapGet, h]

theorem mapGet_cons_ne {e : Str × Nat} {rest : List (Str × Nat)} {k : Str} (h : e.1 ≠ k) :
    mapGet (e :: rest) k = mapGet rest k := by
  simp [mapGet, h]

theorem mapGet_mapSet_ne (m : List (Str × Nat)) {k k' : Str} (v : Nat) (h : k' ≠ k) :
    mapGet (mapSet m k v) k' = mapGet m k' := by
  induction m with
  | nil => simp [mapGet, mapSet, Ne.symm h]
  | cons e rest ih =>
    by_cases he : e.1 = k
    · rw [mapSet_cons_eq he, mapGet_cons_ne (k := k') (by simpa [he] using Ne.symm h),
        mapGet_cons_ne (he ▸ Ne.symm h)]
    · by_cases he' : e.1 = k'
      · rw [mapSet_cons_ne he, mapGet_cons_eq he', mapGet_cons_eq he']
      · rw [mapSet_cons_ne he, mapGet_cons_ne he', mapGet_cons_ne he', ih]

theorem exists_mem_mapSet (m : List (Str × Nat)) (k k' : Str) (v : Nat) :
    (∃ w, (k', w) ∈ mapSet m k v) ↔ (k' = k ∨ ∃ w, (k', w) ∈ m) := by
  induction m with
  | nil => simp [mapSet, Prod.ext_iff]
  | cons e rest ih =>
    by_cases h : e.1 = k
    · obtain ⟨e1, e2⟩ := e
      simp only at h
      subst h
      simp only [mapSet, beq_self_eq_true, if_true, List.mem_cons, Prod.ext_iff]
      constructor
      · rintro ⟨w, ⟨hk, _⟩ | hw⟩
        · exact Or.inl hk
        · exact Or.inr ⟨w, Or.inr hw⟩
      · rintro (hk | ⟨w, ⟨hk, hv⟩ | hw⟩)
        · exact ⟨v, Or.inl ⟨hk, rfl⟩⟩
        · exact ⟨v, Or.inl ⟨hk, rfl⟩⟩
        · exact ⟨w, Or.inr hw⟩
    · rw [mapSet_cons_ne h]
      simp only [List.mem_cons]
      constructor
      · rintro ⟨w, hw | hw⟩
        · exact Or.inr ⟨w, Or.inl hw⟩
        · rcases ih.mp ⟨w, hw⟩ with hk | ⟨w', hw'⟩
          · exact Or.inl hk
          · exact Or.inr ⟨w', Or.inr hw'⟩
      · rintro (hk | ⟨w, hw | hw⟩)
        · obtain ⟨w, hw⟩ := ih.mpr (Or.inl hk)
          exact ⟨w, Or.inr hw⟩
        · exact ⟨w, Or.inl hw⟩
        · obtain ⟨w', hw'⟩ := ih.mpr (Or.inr ⟨w, hw⟩)
          exact ⟨w', Or.inr hw'⟩

theorem mapGet_none_of_canon {m : List (Str × Nat)} (hwf : ∀ e ∈ m, canonKey e.1 = true)
    {k : Str} (h : canonKey k = false) : mapGet m k = none := by
  induction m with
  | nil => rfl
  | cons e rest ih =>
    simp only [mapGet]
    by_cases he : e.1 = k
    · exact absurd (hwf e (by simp)) (by rw [he, h]; simp)
    · rw [if_neg (by simpa using he)]
      exact ih (fun x hx => hwf x (List.mem_cons_of_mem _ hx))

theorem mapGet_pos {m : List (Str × Nat)} (hpos : ∀ e ∈ m, 0 < e.2) {k : Str} {v : Nat}
    (h : mapGet m k = some v) : 0 < v := by
  induction m with
  | nil => cases h
  | cons e rest ih =>
    simp only [mapGet] at h
    split at h
    · cases h
      exact hpos e (by simp)
    · exact ih (fun x hx => hpos x (List.mem_cons_of_mem _ hx)) h

theorem mapSet_not_mem {m : List (Str × Nat)} {k : Str} (v : Nat) (h : ∀ e ∈ m, e.1 ≠ k) :
    mapSet m k v = m ++ [(k, v)] := by
  induction m with
  | nil => rfl
  | cons e rest ih =>
    simp only [mapSet]
    rw [if_neg (by simpa using h e (by simp)), ih (fun x hx => h x (List.mem_cons_of_mem _ hx))]
    simp

theorem setBinding_str (bp : BoundPorts) (s : Str) (v : Nat) (proto : Str) :
    (bp.setBinding (PortInput.str s) v proto).ports = mapSet bp.ports (renorm s) v := by
  simp only [BoundPorts.setBinding, renorm]
  cases h : splitChar '/' s with
  | nil => rfl
  | cons a t =>
    cases t with
    | nil => rfl
    | cons b t2 => rfl

theorem setBinding_num (bp : BoundPorts) (n v : Nat) (proto : Str) :
    (bp.setBinding (PortInput.num n) v proto).ports =
      mapSet bp.ports (natToStr n ++ '/' :: lowerStr proto) v := rfl

theorem renorm_two {a b : Str} (ha : '/' ∉ a) (hb : '/' ∉ b) :
    renorm (a ++ '/' :: b) = a ++ '/' :: lowerStr b := by
  unfold renorm
  rw [splitChar_two ha hb]

theorem renorm_not_mem {s : Str} (h : '/' ∉ s) : renorm s = s := by
  unfold renorm
  rw [splitChar_not_mem h]

theorem canonKey_two {a b : Str} (ha : '/' ∉ a) (hb : '/' ∉ b) :
    canonKey (a ++ '/' :: b) = (b == lowerStr b) := by
  unfold canonKey
  rw [splitChar_two ha hb]
  simp

theorem canonKey_not_mem {s : Str} (h : '/' ∉ s) : canonKey s = true := by
  unfold canonKey
  rw [splitChar_not_mem h]

theorem resolveLoop_nil (hostIps : List HostIp) : resolveLoop [] hostIps = none := by
  induction hostIps with
  | nil => rfl
  | cons ip rest ih => simp [resolveLoop, List.find?, ih]

theorem resolveHostPortBinding_nil (hostIps : List HostIp) :
    resolveHostPortBinding hostIps [] = none := by
  simp [resolveHostPortBinding, isDualStackIp, resolveLoop_nil]

theorem resolveLoop_eq_findSome (hostPortBindings : List HostPortBinding) (hostIps : List HostIp) :
    resolveLoop hostPortBindings hostIps =
      hostIps.findSome? (fun ip =>
        (hostPortBindings.find? (fun b => isIP b.hostIp == ip.family.toNat)).map
          (fun b => b.hostPort)) := by
  induction hostIps with
  | nil => rfl
  | cons ip rest ih =>
    simp only [resolveLoop, List.findSome?_cons]
    cases hostPortBindings.find? (fun b => isIP b.hostIp == ip.family.toNat) with
    | none => simpa using ih
    | some b => rfl

theorem pollTicks_ok_iff (inspectFn : Nat → InspectResult) (pred : InspectResult → Bool)
    (onTimeout : Str) (fuel t0 k : Nat) (s : InspectResult) :
    pollTicks inspectFn pred onTimeout fuel t0 = Except.ok (k, s) ↔
      (t0 ≤ k ∧ k < t0 + fuel ∧ s = inspectFn k ∧ pred (inspectFn k) = true ∧
        ∀ j, t0 ≤ j → j < k → pred (inspectFn j) = false) := by
  induction fuel generalizing t0 with
  | zero =>
    simp only [pollTicks]
    constructor
    · intro h
      cases h
    · rintro ⟨h1, h2, _⟩
      omega
  | succ fuel ih =>
    simp only [pollTicks]
    by_cases hp : pred (inspectFn t0) = true
    · rw [if_pos hp]
      constructor
      · intro h
        cases h
        exact ⟨le_refl _, by omega, rfl, hp, fun j hj1 hj2 => absurd (le_trans hj1 (le_of_lt hj2)) (by omega)⟩
      · rintro ⟨h1, h2, h3, h4, h5⟩
        rcases Nat.eq_or_lt_of_le h1 with he | hlt
        · subst he
          rw [h3]
        · exact absurd hp (by simp [h5 t0 (le_refl _) hlt])
    · rw [if_neg hp]
      rw [ih (t0 + 1)]
      constructor
      · rintro ⟨h1, h2, h3, h4, h5⟩
        refine ⟨by omega, by omega, h3, h4, fun j hj1 hj2 => ?_⟩
        rcases Nat.eq_or_lt_of_le hj1 with he | hlt
        · subst he
          simpa using hp
        · exact h5 j hlt hj2
      · rintro ⟨h1, h2, h3, h4, h5⟩
        have hne : t0 ≠ k := by
          intro he
          subst he
          exact hp h4
        exact ⟨by omega, by omega, h3, h4, fun j hj1 hj2 => h5 j (by omega) hj2⟩

theorem pollTicks_error (inspectFn : Nat → InspectResult) (pred : InspectResult → Bool)
    (onTimeout : Str) (fuel t0 : Nat)
    (h : ∀ j, t0 ≤ j → j < t0 + fuel → pred (inspectFn j) = false) :
    pollTicks inspectFn pred onTimeout fuel t0 = Except.error onTimeout := by
  induction fuel generalizing t0 with
  | zero => rfl
  | succ fuel ih =>
    simp only [pollTicks]
    rw [if_neg (by simp [h t0 (le_refl _) (by omega)])]
    exact ih (t0 + 1) (fun j hj1 hj2 => h j (by omega) (by omega))

theorem renorm_eq_of_canon {k : Str} (h : canonKey k = true) : renorm k = k := by
  unfold canonKey at h
  unfold renorm
  cases hs : splitChar '/' k with
  | nil => rfl
  | cons a t =>
    rw [hs] at h
    cases t with
    | nil => rfl
    | cons b t2 =>
      simp only [Bool.and_eq_true, List.isEmpty_iff, beq_iff_eq] at h
      obtain ⟨h1, h2⟩ := h
      subst h1
      have hk := eq_of_splitChar_two hs
      rw [hk]
      show a ++ '/' :: lowerStr b = a ++ '/' :: b
      rw [← h2]

theorem resolveHostPortBinding_some_ne_nil {hostIps : List HostIp} {bs : List HostPortBinding}
    {hp : Nat} (h : resolveHostPortBinding hostIps bs = some hp) : bs ≠ [] := by
  intro he
  subst he
  rw [resolveHostPortBinding_nil] at h
  cases h

theorem fromInspectAux_presence (hostIps : List HostIp) (res : List (Str × List HostPortBinding)) :
    ∀ (acc bp : BoundPorts), fromInspectAux hostIps acc res = some bp →
      ∀ k, (∃ v, (k, v) ∈ bp.ports) ↔
        ((∃ v, (k, v) ∈ acc.ports) ∨ ∃ e ∈ res, renorm e.1 = k ∧ e.2 ≠ []) := by
  induction res with
  | nil =>
    intro acc bp h k
    cases h
    simp
  | cons e rest ih =>
    intro acc bp h k
    simp only [fromInspectAux] at h
    cases hres : resolveHostPortBinding hostIps e.2 with
    | none =>
      rw [hres] at h
      cases h
    | some hp =>
      rw [hres] at h
      have hne : e.2 ≠ [] := resolveHostPortBinding_some_ne_nil hres
      have hstep := ih (acc.setBinding (PortInput.str e.1) hp "tcp".data) bp h k
      have hmem : (∃ v, (k, v) ∈ (acc.setBinding (PortInput.str e.1) hp "tcp".data).ports) ↔
          (k = renorm e.1 ∨ ∃ v, (k, v) ∈ acc.ports) := by
        rw [setBinding_str]
        exact exists_mem_mapSet _ _ _ _
      rw [hstep, hmem]
      simp only [List.mem_cons]
      constructor
      · rintro ((hk | hA) | hB)
        · exact Or.inr ⟨e, Or.inl rfl, hk.symm, hne⟩
        · exact Or.inl hA
        · obtain ⟨x, hx, hx2⟩ := hB
          exact Or.inr ⟨x, Or.inr hx, hx2⟩
      · rintro (hA | ⟨x, hx | hx, hx2, hx3⟩)
        · exact Or.inl (Or.inr hA)
        · subst hx
          exact Or.inl (Or.inl hx2.symm)
        · exact Or.inr ⟨x, hx, hx2, hx3⟩

theorem filterStep_eq (specs : List PortWithOptionalBinding) (acc : BoundPorts) (e : Str × Nat) :
    filterStep (specs.map fun p => (getContainerPort p, getProtocol p)) acc e =
      if keepKey specs e.1 then acc.setBinding (PortInput.str e.1) e.2 "tcp".data else acc := by
  unfold filterStep keepKey
  rcases h1 : jsMapGet (specs.map fun p => (getContainerPort p, getProtocol p))
      (parseIntJS (splitTwo e.1).1) with _ | sp <;>
    rcases h2 : (splitTwo e.1).2 with _ | pr <;>
      simp only [h1, h2] <;> rfl

theorem filter_fold (specs : List PortWithOptionalBinding) (l : List (Str × Nat)) :
    ∀ acc : BoundPorts,
      (∀ e ∈ l, canonKey e.1 = true) →
      l.Pairwise (fun a b => a.1 ≠ b.1) →
      (∀ e ∈ l, ∀ a ∈ acc.ports, a.1 ≠ e.1) →
      l.foldl (filterStep (specs.map fun p => (getContainerPort p, getProtocol p))) acc =
        ⟨acc.ports ++ l.filter (fun e => keepKey specs e.1)⟩ := by
  induction l with
  | nil =>
    intro acc _ _ _
    simp
  | cons e rest ih =>
    intro acc hcanon hdist hdisj
    rw [List.foldl_cons, filterStep_eq]
    by_cases hk : keepKey specs e.1 = true
    · rw [if_pos hk]
      have hre : renorm e.1 = e.1 := renorm_eq_of_canon (hcanon e (by simp))
      have hset : (acc.setBinding (PortInput.str e.1) e.2 "tcp".data).ports =
          acc.ports ++ [(e.1, e.2)] := by
        rw [setBinding_str, hre, mapSet_not_mem _ (fun a ha => hdisj e (by simp) a ha)]
      have hrest := ih (acc.setBinding (PortInput.str e.1) e.2 "tcp".data)
        (fun x hx => hcanon x (List.mem_cons_of_mem _ hx))
        (List.Pairwise.sublist (List.sublist_cons_self e rest) hdist)
        (by
          intro x hx a ha
          rw [hset] at ha
          rcases List.mem_append.mp ha with ha | ha
          · exact hdisj x (List.mem_cons_of_mem _ hx) a ha
          · simp only [List.mem_singleton] at ha
            subst ha
            exact (List.rel_of_pairwise_cons hdist hx))
      rw [hrest, hset]
      simp [List.filter_cons, hk, List.append_assoc]
    · rw [if_neg hk]
      have hrest := ih acc
        (fun x hx => hcanon x (List.mem_cons_of_mem _ hx))
        (List.Pairwise.sublist (List.sublist_cons_self e rest) hdist)
        (fun x hx a ha => hdisj x (List.mem_cons_of_mem _ hx) a ha)
      have hk2 : keepKey specs e.1 = false := by simpa using hk
      rw [hrest]
      simp [List.filter_cons, hk2]

/-- Claim C3: for every non-dual-stack raw binding list, the resolver walks the
caller's host IP families in the order supplied and returns the host port of
the first binding whose host IP parses as the family under scan; on the
bindings [{10.0.0.1, 100}, {::1, 200}], preference [IPv4] yields 100 and
preference [IPv6] yields 200. -/
theorem resolver_family_preference (hostIps : List HostIp) (bs : List HostPortBinding)
    (hnd : isDualStackIp bs = false) :
    (resolveHostPortBinding hostIps bs =
      hostIps.findSome? (fun ip =>
        (bs.find? (fun b => isIP b.hostIp == ip.family.toNat)).map (fun b => b.hostPort))) ∧
    resolveHostPortBinding [⟨IpFamily.v4⟩] [⟨"10.0.0.1".data, 100⟩, ⟨"::1".data, 200⟩] = some 100 ∧
    resolveHostPortBinding [⟨IpFamily.v6⟩] [⟨"10.0.0.1".data, 100⟩, ⟨"::1".data, 200⟩] = some 200 := by
  refine ⟨?_, by decide, by decide⟩
  rw [resolveHostPortBinding, if_neg (by simp [hnd]), resolveLoop_eq_findSome]

theorem resolver_family_preference_witness :
    resolveHostPortBinding [⟨IpFamily.v6⟩] [⟨"10.0.0.1".data, 100⟩, ⟨"::1".data, 200⟩] =
      [(⟨IpFamily.v6⟩ : HostIp)].findSome? (fun ip =>
        (([⟨"10.0.0.1".data, 100⟩, ⟨"::1".data, 200⟩] : List HostPortBinding).find?
           (fun b => isIP b.hostIp == ip.family.toNat)).map (fun b => b.hostPort)) :=
  (resolver_family_preference _ _ (by decide)).1

/-- Claim C4: for every list of host IP families (empty included, in any
order), a raw binding list with exactly one entry whose host IP is the empty
string resolves to that entry's host port. -/
theorem resolver_dual_stack_wildcard (hostIps : List HostIp) (b : HostPortBinding)
    (h : b.hostIp = []) :
    resolveHostPortBinding hostIps [b] = some b.hostPort := by
  rw [resolveHostPortBinding, if_pos (by simp [isDualStackIp, h])]
  rfl

theorem resolver_dual_stack_wildcard_witness :
    resolveHostPortBinding [⟨IpFamily.v6⟩, ⟨IpFamily.v4⟩] [⟨[], 45000⟩] = some 45000 :=
  resolver_dual_stack_wildcard _ ⟨[], 45000⟩ rfl

/-- Claim C10: an entry whose host IP is the empty string never satisfies the
family scan for any requested family (the empty string parses as no IP
family), so `find?` can never select it; consequently resolution of any
non-dual-stack binding list against an empty family list fails. -/
theorem wildcard_binding_never_selected :
    (∀ (f : IpFamily) (b : HostPortBinding) (bs : List HostPortBinding), b.hostIp = [] →
       ((isIP b.hostIp == f.toNat) = false ∧
        bs.find? (fun x => isIP x.hostIp == f.toNat) ≠ some b)) ∧
    (∀ bs : List HostPortBinding, isDualStackIp bs = false →
       resolveHostPortBinding [] bs = none) := by
  constructor
  · intro f b bs hb
    have h1 : (isIP b.hostIp == f.toNat) = false := by
      rw [hb]
      cases f <;> decide
    refine ⟨h1, fun hf => ?_⟩
    have := List.find?_some hf
    rw [h1] at this
    cases this
  · intro bs h
    rw [resolveHostPortBinding, if_neg (by simp [h])]
    rfl

theorem wildcard_binding_never_selected_witness :
    (([⟨"10.0.0.1".data, 7⟩, ⟨[], 8⟩] : List HostPortBinding).find?
       (fun x => isIP x.hostIp == IpFamily.toNat IpFamily.v4) ≠ some ⟨[], 8⟩) ∧
    resolveHostPortBinding [] [⟨"10.0.0.1".data, 7⟩, ⟨[], 8⟩] = none :=
  ⟨(wildcard_binding_never_selected.1 IpFamily.v4 ⟨[], 8⟩ _ rfl).2,
   wildcard_binding_never_selected.2 _ (by decide)⟩

/-- Claim C7 (counterexample): at a concrete failing input the raised error is
the fixed message "Container did not expose all ports after starting", the
outcome is identical under a different container identifier, and the message
is not the container identifier — so the raised error does not carry it. -/
theorem poll_error_not_container_id_cex :
    (inspectContainerUntilPortsExposed (fun _ => ⟨[]⟩) [PortWithOptionalBinding.num 8080]
        "container-id".data 0 = Except.error portExposureTimeoutMessage) ∧
    (inspectContainerUntilPortsExposed (fun _ => ⟨[]⟩) [PortWithOptionalBinding.num 8080]
        "another-container".data 0 =
      inspectContainerUntilPortsExposed (fun _ => ⟨[]⟩) [PortWithOptionalBinding.num 8080]
        "container-id".data 0) ∧
    portExposureTimeoutMessage ≠ "container-id".data :=
  ⟨rfl, rfl, by decide⟩

/-- Claim C7 (amended): when every tick within the timeout fails the exposure
predicate, the poll fails with the error carrying the fixed message
"Container did not expose all ports after starting"; the raised error does
not depend on the container identifier, which appears only in the record the
onTimeout callback hands to the error log; with a timeout of zero the outcome
is decided by the first tick alone — success on it, or the error, with no
second attempt. -/
theorem poll_timeout_fixed_error (inspectFn : Nat → InspectResult)
    (ports : List PortWithOptionalBinding) (containerId containerId2 : Str) (timeout : Nat) :
    ((∀ k, k < numTicks timeout → portsExposedPred ports (inspectFn k) = false) →
       inspectContainerUntilPortsExposed inspectFn ports containerId timeout =
         Except.error portExposureTimeoutMessage) ∧
    (inspectContainerUntilPortsExposed inspectFn ports containerId timeout =
       inspectContainerUntilPortsExposed inspectFn ports containerId2 timeout) ∧
    ((portExposureTimeoutLog containerId).2 = containerId) ∧
    (inspectContainerUntilPortsExposed inspectFn ports containerId 0 =
       if portsExposedPred ports (inspectFn 0) = true then Except.ok (0, inspectFn 0)
       else Except.error portExposureTimeoutMessage) := by
  refine ⟨?_, rfl, rfl, ?_⟩
  · intro h
    exact pollTicks_error _ _ _ _ 0 (fun j hj1 hj2 => h j (by omega))
  · show pollTicks _ _ _ (numTicks 0) 0 = _
    have h1 : numTicks 0 = 1 := rfl
    rw [h1]
    by_cases hp : portsExposedPred ports (inspectFn 0) = true <;> simp [hp, pollTicks]

theorem poll_timeout_fixed_error_witness :
    inspectContainerUntilPortsExposed (fun _ => ⟨[]⟩) [PortWithOptionalBinding.num 8080]
        "container-id".data 0 = Except.error portExposureTimeoutMessage :=
  (poll_timeout_fixed_error _ _ _ "other-id".data 0).1 (fun k _ => by decide)

/-- Claim C2: the poll returns success with tick `k` and snapshot `s` exactly
when `s` is the fresh snapshot of tick `k`, every earlier tick's snapshot
failed the predicate, and snapshot `k` alone satisfies the full wanted set;
and a snapshot satisfies the tick predicate exactly when every wanted port's
canonical containerPort/protocol key holds a non-empty raw binding list in
that same snapshot (so a different protocol under the same numeric port never
matches, and there is no accumulation across ticks). -/
theorem tick_succeeds_iff_all_ports_in_snapshot (inspectFn : Nat → InspectResult)
    (ports : List PortWithOptionalBinding) (containerId : Str) (timeout k : Nat)
    (s snap : InspectResult) :
    (inspectContainerUntilPortsExposed inspectFn ports containerId timeout = Except.ok (k, s) ↔
      (k < numTicks timeout ∧ s = inspectFn k ∧ portsExposedPred ports (inspectFn k) = true ∧
        ∀ j, j < k → portsExposedPred ports (inspectFn j) = false)) ∧
    (portsExposedPred ports snap = true ↔
      ∀ p ∈ ports, ∃ l, objGet snap.ports
          (jsNumToStr (getContainerPort p) ++ '/' :: getProtocol p) = some l ∧ l ≠ []) := by
  constructor
  · rw [inspectContainerUntilPortsExposed, pollTicks_ok_iff]
    constructor
    · rintro ⟨h1, h2, h3, h4, h5⟩
      exact ⟨by omega, h3, h4, fun j hj => h5 j (by omega) hj⟩
    · rintro ⟨h1, h2, h3, h4⟩
      exact ⟨Nat.zero_le _, by omega, h2, h3, fun j _ hj => h4 j hj⟩
  · rw [portsExposedPred, List.all_eq_true]
    refine forall_congr' fun p => ?_
    refine imp_congr_right fun hp => ?_
    cases h : objGet snap.ports (jsNumToStr (getContainerPort p) ++ '/' :: getProtocol p) with
    | none => simp [h]
    | some l => simp [h, List.length_pos]

theorem tick_succeeds_iff_all_ports_in_snapshot_witness :
    inspectContainerUntilPortsExposed
        (fun _ => ⟨[("8080/tcp".data, [⟨"0.0.0.0".data, 45000⟩])]⟩)
        [PortWithOptionalBinding.num 8080] "cid".data 10000 =
      Except.ok (0, ⟨[("8080/tcp".data, [⟨"0.0.0.0".data, 45000⟩])]⟩) :=
  ((tick_succeeds_iff_all_ports_in_snapshot
      (fun _ => ⟨[("8080/tcp".data, [⟨"0.0.0.0".data, 45000⟩])]⟩)
      [PortWithOptionalBinding.num 8080] "cid".data 10000 0
      ⟨[("8080/tcp".data, [⟨"0.0.0.0".data, 45000⟩])]⟩ ⟨[]⟩).1).mpr
    ⟨by decide, rfl, by decide, fun j hj => absurd hj (Nat.not_lt_zero j)⟩

/-- Claim C9: for a registry successfully built by `fromInspectResult`, a key
is present exactly when the snapshot holds a group with a non-empty raw
binding list whose stored (re-normalised) key is that key; in particular an
empty group contributes no entry (any empty group in fact aborts the whole
construction, so the equivalence holds for every registry the factory
returns). -/
theorem fromInspectResult_key_presence (hostIps : List HostIp) (inspectResult : InspectResult)
    (bp : BoundPorts) (h : BoundPorts.fromInspectResult hostIps inspectResult = some bp) (k : Str) :
    (∃ v, (k, v) ∈ bp.ports) ↔ (∃ e ∈ inspectResult.ports, renorm e.1 = k ∧ e.2 ≠ []) := by
  have hpres := fromInspectAux_presence hostIps inspectResult.ports BoundPorts.empty bp h k
  simpa [BoundPorts.empty] using hpres

theorem fromInspectResult_key_presence_witness :
    (∃ v, ("8080/tcp".data, v) ∈ (⟨[("8080/tcp".data, 45000)]⟩ : BoundPorts).ports) ↔
      (∃ e ∈ ({ ports := [("8080/tcp".data, [⟨"0.0.0.0".data, 45000⟩])] } : InspectResult).ports,
        renorm e.1 = "8080/tcp".data ∧ e.2 ≠ []) :=
  fromInspectResult_key_presence [⟨IpFamily.v4⟩]
    ⟨[("8080/tcp".data, [⟨"0.0.0.0".data, 45000⟩])]⟩ ⟨[("8080/tcp".data, 45000)]⟩
    (by decide) "8080/tcp".data

/-- Claim C8: under the registry invariant that every stored host port is
positive, `getBinding` fails exactly when both lookup attempts (the exact key,
then — only distinct for string inputs containing `/` — the key with its
protocol segment lower-cased) miss; when it succeeds, the returned host port
is the value found by one of the two attempts. -/
theorem getBinding_none_iff (bp : BoundPorts) (port : PortInput) (protocol : Str)
    (hpos : ∀ e ∈ bp.ports, 0 < e.2) :
    (bp.getBinding port protocol = none ↔
       (mapGet bp.ports (primaryKey port protocol) = none ∧
        mapGet bp.ports (retryKey port protocol) = none)) ∧
    (∀ v, bp.getBinding port protocol = some v →
       (mapGet bp.ports (primaryKey port protocol) = some v ∨
        mapGet bp.ports (retryKey port protocol) = some v)) := by
  cases port with
  | num n =>
    simp only [BoundPorts.getBinding, primaryKey, retryKey]
    cases hb : mapGet bp.ports (natToStr n ++ '/' :: lowerStr protocol) with
    | none => simp [falsy]
    | some w =>
      have hw : 0 < w := mapGet_pos hpos hb
      have hw2 : (w == 0) = false := by
        simp only [beq_eq_false_iff_ne, ne_eq]
        omega
      simp [falsy, hw2]
  | str s =>
    simp only [BoundPorts.getBinding, primaryKey, retryKey, renorm]
    cases hsp : splitChar '/' s with
    | nil => exact absurd hsp (splitChar_ne_nil '/' s)
    | cons a t =>
      cases t with
      | nil =>
        cases hb : mapGet bp.ports s with
        | none => simp [falsy]
        | some w =>
          have hw : 0 < w := mapGet_pos hpos hb
          have hw2 : (w == 0) = false := by
            simp only [beq_eq_false_iff_ne, ne_eq]
            omega
          simp [falsy, hw2]
      | cons b t2 =>
        cases hb : mapGet bp.ports s with
        | some w =>
          have hw : 0 < w := mapGet_pos hpos hb
          have hw2 : (w == 0) = false := by
            simp only [beq_eq_false_iff_ne, ne_eq]
            omega
          simp [falsy, hw2]
        | none =>
          cases hr : mapGet bp.ports (a ++ '/' :: lowerStr b) with
          | none => simp [falsy, hr]
          | some w =>
            have hw : 0 < w := mapGet_pos hpos hr
            have hw2 : (w == 0) = false := by
              simp only [beq_eq_false_iff_ne, ne_eq]
              omega
            simp [falsy, hr, hw2]

theorem getBinding_none_iff_witness :
    BoundPorts.empty.getBinding (PortInput.num 9999) "tcp".data = none :=
  ((getBinding_none_iff BoundPorts.empty (PortInput.num 9999) "tcp".data
      (fun e he => absurd he (by simp [BoundPorts.empty]))).1).mpr ⟨rfl, rfl⟩

/-- Claim C1 (counterexample): on the registry {8080/tcp: 1, 8080/udp: 2}
filtered by the two specs "8080/tcp" and "8080/udp", the entry 8080/tcp
matches the first spec (container port equal, protocol equal
case-insensitively) yet is absent from the filtered registry: the spec lookup
map is keyed by container port number alone, so the later 8080/udp spec
overwrites the 8080/tcp one. -/
theorem boundPorts_filter_claim_cex :
    ¬ (∀ e ∈ (⟨[("8080/tcp".data, 1), ("8080/udp".data, 2)]⟩ : BoundPorts).ports,
        ([PortWithOptionalBinding.str "8080/tcp".data,
          PortWithOptionalBinding.str "8080/udp".data].any
            (fun sp => specMatchesKey sp e.1)) = true →
        e ∈ ((⟨[("8080/tcp".data, 1), ("8080/udp".data, 2)]⟩ : BoundPorts).filter
            [PortWithOptionalBinding.str "8080/tcp".data,
             PortWithOptionalBinding.str "8080/udp".data]).ports) := by
  decide

/-- Claim C1 (amended): for a registry with canonical, pairwise-distinct keys
(as produced by `setBinding`), `filter` retains exactly the entries accepted
by `keepKey`: the entry's parsed container port must be a spec's container
port and its protocol must equal, case-insensitively, the protocol of the
LAST spec carrying that container port number; entries matching only an
earlier spec with the same port number are dropped. -/
theorem boundPorts_filter_amended (bp : BoundPorts) (specs : List PortWithOptionalBinding)
    (hcanon : ∀ e ∈ bp.ports, canonKey e.1 = true)
    (hdist : bp.ports.Pairwise (fun a b => a.1 ≠ b.1)) :
    (bp.filter specs).ports = bp.ports.filter (fun e => keepKey specs e.1) := by
  have h := filter_fold specs bp.ports BoundPorts.empty hcanon hdist
    (fun e he a ha => absurd ha (by simp [BoundPorts.empty]))
  calc (bp.filter specs).ports
      = (bp.ports.foldl (filterStep (specs.map fun p => (getContainerPort p, getProtocol p)))
          BoundPorts.empty).ports := rfl
    _ = bp.ports.filter (fun e => keepKey specs e.1) := by rw [h]; simp [BoundPorts.empty]

theorem boundPorts_filter_amended_witness :
    ((⟨[("8080/tcp".data, 1), ("8080/udp".data, 2)]⟩ : BoundPorts).filter
        [PortWithOptionalBinding.str "8080/tcp".data,
         PortWithOptionalBinding.str "8080/udp".data]).ports =
      [("8080/tcp".data, 1), ("8080/udp".data, 2)].filter
        (fun e => keepKey [PortWithOptionalBinding.str "8080/tcp".data,
          PortWithOptionalBinding.str "8080/udp".data] e.1) :=
  boundPorts_filter_amended ⟨[("8080/tcp".data, 1), ("8080/udp".data, 2)]⟩
    [PortWithOptionalBinding.str "8080/tcp".data, PortWithOptionalBinding.str "8080/udp".data]
    (by decide) (by decide)

/-- Claim C5 (counterexample): `setBinding("8080", 45000, "tcp")` with a string
key not containing `/` stores under the key `"8080"` as-is — the claimed
synthesised key `"8080/tcp"` is absent from the registry. -/
theorem setBinding_synthesis_cex :
    (BoundPorts.empty.setBinding (PortInput.str "8080".data) 45000 "tcp".data).ports =
      [("8080".data, 45000)] ∧
    ("8080/tcp".data, 45000) ∉
      (BoundPorts.empty.setBinding (PortInput.str "8080".data) 45000 "tcp".data).ports := by
  decide

/-- Claim C5 (amended): a string key with exactly one `/` is stored under the
key with its protocol segment lower-cased and the protocol parameter ignored;
a numeric key is stored under the synthesised `key/protocol` with the
protocol parameter lower-cased; a string key without `/` is stored as-is, the
protocol parameter being ignored (not appended). -/
theorem setBinding_stored_key (bp : BoundPorts) (v n : Nat) (proto proto2 a b s : Str)
    (ha : '/' ∉ a) (hb : '/' ∉ b) (hs : '/' ∉ s) :
    ((bp.setBinding (PortInput.str (a ++ '/' :: b)) v proto).ports =
       mapSet bp.ports (a ++ '/' :: lowerStr b) v) ∧
    (bp.setBinding (PortInput.str (a ++ '/' :: b)) v proto =
       bp.setBinding (PortInput.str (a ++ '/' :: b)) v proto2) ∧
    ((bp.setBinding (PortInput.num n) v proto).ports =
       mapSet bp.ports (natToStr n ++ '/' :: lowerStr proto) v) ∧
    ((bp.setBinding (PortInput.str s) v proto).ports = mapSet bp.ports s v) ∧
    (bp.setBinding (PortInput.str s) v proto = bp.setBinding (PortInput.str s) v proto2) := by
  refine ⟨?_, rfl, rfl, ?_, rfl⟩
  · rw [setBinding_str, renorm_two ha hb]
  · rw [setBinding_str, renorm_not_mem hs]

theorem setBinding_stored_key_witness :
    (BoundPorts.empty.setBinding (PortInput.str ("8080".data ++ '/' :: "TCP".data)) 45000
        "udp".data).ports =
      mapSet BoundPorts.empty.ports ("8080".data ++ '/' :: lowerStr "TCP".data) 45000 :=
  (setBinding_stored_key BoundPorts.empty 45000 7 "udp".data "tcp".data "8080".data "TCP".data
    "9090".data (by decide) (by decide) (by decide)).1

/-- Claim C6: on a canonical-keyed registry, storing a binding under any
casing of a slash-free protocol token (here as the string key
`port/PROTOCOL`) makes it retrievable by `getBinding` under any other casing,
both through a string key (exact lookup first, then the lower-cased-protocol
retry) and through a numeric port with the protocol parameter, for any host
port in [1, 65535]. -/
theorem getBinding_case_insensitive (bp : BoundPorts) (n v : Nat) (proto p q : Str)
    (hv1 : 1 ≤ v) (hv2 : v ≤ 65535)
    (hproto : lowerStr proto = proto)
    (hp : lowerStr p = proto) (hq : lowerStr q = proto)
    (hpns : '/' ∉ p) (hqns : '/' ∉ q)
    (hwf : ∀ e ∈ bp.ports, canonKey e.1 = true) :
    ((bp.setBinding (PortInput.str (natToStr n ++ '/' :: p)) v "tcp".data).getBinding
        (PortInput.str (natToStr n ++ '/' :: q)) "tcp".data = some v) ∧
    ((bp.setBinding (PortInput.str (natToStr n ++ '/' :: p)) v "tcp".data).getBinding
        (PortInput.num n) q = some v) := by
  have hna : '/' ∉ natToStr n := slash_not_mem_natToStr n
  have hKfact : (bp.setBinding (PortInput.str (natToStr n ++ '/' :: p)) v "tcp".data).ports =
      mapSet bp.ports (natToStr n ++ '/' :: proto) v := by
    rw [setBinding_str, renorm_two hna hpns, hp]
  have hvne : (v == 0) = false := by
    simp only [beq_eq_false_iff_ne, ne_eq]
    omega
  constructor
  · by_cases hqp : q = proto
    · subst hqp
      simp only [BoundPorts.getBinding, hKfact]
      rw [mapGet_mapSet_self]
      simp [falsy, hvne]
    · have hkey_ne : natToStr n ++ '/' :: q ≠ natToStr n ++ '/' :: proto := by
        intro he
        exact hqp (by simpa using List.append_cancel_left he)
      have hcanonfalse : canonKey (natToStr n ++ '/' :: q) = false := by
        rw [canonKey_two hna hqns]
        simp only [beq_eq_false_iff_ne, ne_eq]
        rw [hq]
        exact hqp
      simp only [BoundPorts.getBinding, hKfact]
      rw [mapGet_mapSet_ne _ _ hkey_ne, mapGet_none_of_canon hwf hcanonfalse,
        splitChar_two hna hqns]
      simp [falsy, hq, mapGet_mapSet_self, hvne]
  · simp only [BoundPorts.getBinding, hKfact]
    rw [hq, mapGet_mapSet_self]
    simp [falsy, hvne]

theorem getBinding_case_insensitive_witness :
    ((BoundPorts.empty.setBinding (PortInput.str (natToStr 8080 ++ '/' :: "TCP".data)) 45000
        "tcp".data).getBinding
          (PortInput.str (natToStr 8080 ++ '/' :: "tcp".data)) "tcp".data = some 45000) ∧
    ((BoundPorts.empty.setBinding (PortInput.str (natToStr 8080 ++ '/' :: "TCP".data)) 45000
        "tcp".data).getBinding (PortInput.num 8080) "tcp".data = some 45000) :=
  getBinding_case_insensitive BoundPorts.empty 8080 45000 "tcp".data "TCP".data "tcp".data
    (by decide) (by decide) (by decide) (by decide) (by decide) (by decide) (by decide)
    (fun e he => absurd he (by simp [BoundPorts.empty]))
